import Mathlib

/-!
# PyTorch training operator: exit codes, pod lists and preemption labels

A shallow embedding of

* `pkg/common/util/util.go` (`ConvertPodList`, `ConvertPodListWithFilter`, `GetReplicaTypes`,
  `GetContainerExitCode`),
* `pkg/controller.v1/pytorch/label.go` (`setPodLabel`),
* `pkg/apis/pytorch/v1/zz_generated.deepcopy.go` (`ElasticPolicy.DeepCopy`,
  `PyTorchJobSpec.DeepCopyInto`),

together with the part of the Kubernetes / Kubeflow data model these functions read.

Conventions of the embedding

* a Go pointer `*T` is an `Option T` (`none` is the nil pointer);
* a Go slice or map that the code tests against nil is an `Option` of a list
  (`none` is the nil slice or map, `some []` the empty non-nil one);
* a Go map is an association list read by its first matching key; `range` visits the
  entries in list order, and a well-formed map has distinct keys;
* deep copies of library types are parameters (`LibraryCopies`);
* an `int32` is an `Int`, with `isInt32` stating the range;
* a function that can dereference a nil pointer returns `Except Panic _`.
-/

set_option autoImplicit false

namespace TrainingOperator

/-! ## Go runtime model -/

/-- Run-time panics of the Go code in scope. -/
inductive Panic where
  | nilPointerDereference
  | assignmentToNilMap
  deriving DecidableEq, Repr

deriving instance DecidableEq for Except

/-- Range of a signed 32-bit integer. -/
def isInt32 (i : Int) : Prop := -2147483648 ≤ i ∧ i ≤ 2147483647

instance (i : Int) : Decidable (isInt32 i) :=
  inferInstanceAs (Decidable (-2147483648 ≤ i ∧ i ≤ 2147483647))

/-- Go map read `m[k]` on a non-nil map, as an optional value (`none`: key absent). -/
def mapGet {β : Type} : List (String × β) → String → Option β
  | [], _ => none
  | (k', v') :: rest, k => if k' = k then some v' else mapGet rest k

/-- Go map write `m[k] = v` on a non-nil map: overwrite the binding of `k` or add one. -/
def mapSet {β : Type} : List (String × β) → String → β → List (String × β)
  | [], k, v => [(k, v)]
  | (k', v') :: rest, k, v =>
    if k' = k then (k, v) :: rest else (k', v') :: mapSet rest k v

/-- Go `len(m)` for a possibly nil map or slice. -/
def goLen {α : Type} : Option (List α) → Nat
  | none => 0
  | some l => l.length

/-! ## Kubernetes core objects (the fields the code reads) -/

/-- Type `map[string]string`, possibly nil. -/
abbrev StringMap := Option (List (String × String))

/-- Fields of `metav1.ObjectMeta`. -/
structure ObjectMeta where
  Name : String := ""
  Namespace : String := ""
  Labels : StringMap := none
  Annotations : StringMap := none
  deriving DecidableEq, Repr

/-- Fields of `corev1.ContainerStateTerminated`; `ExitCode` is an `int32`. -/
structure ContainerStateTerminated where
  ExitCode : Int
  Signal : Int := 0
  Reason : String := ""
  deriving DecidableEq, Repr

/-- Fields of `corev1.ContainerStateWaiting`. -/
structure ContainerStateWaiting where
  Reason : String := ""
  deriving DecidableEq, Repr

/-- Fields of `corev1.ContainerStateRunning`. -/
structure ContainerStateRunning where
  StartedAt : Nat := 0
  deriving DecidableEq, Repr

/-- Struct `corev1.ContainerState`: three optional (pointer) members. -/
structure ContainerState where
  Waiting : Option ContainerStateWaiting := none
  Running : Option ContainerStateRunning := none
  Terminated : Option ContainerStateTerminated := none
  deriving DecidableEq, Repr

/-- Fields of `corev1.ContainerStatus`. -/
structure ContainerStatus where
  Name : String
  State : ContainerState := {}
  deriving DecidableEq, Repr

/-- Fields of `corev1.PodStatus`; a nil and an empty status slice range alike. -/
structure PodStatus where
  Phase : String := ""
  ContainerStatuses : List ContainerStatus := []
  deriving DecidableEq, Repr

/-- Fields of `corev1.Container`. -/
structure Container where
  Name : String
  Image : String := ""
  deriving DecidableEq, Repr

/-- Fields of `corev1.PodSpec`. -/
structure PodSpec where
  Containers : List Container := []
  deriving DecidableEq, Repr

/-- Struct `corev1.Pod`. -/
structure Pod where
  ObjectMeta : ObjectMeta := {}
  Spec : PodSpec := {}
  Status : PodStatus := {}
  deriving DecidableEq, Repr

/-- Struct `corev1.PodTemplateSpec`; `podTemplateSpec.Labels` is `ObjectMeta.Labels`. -/
structure PodTemplateSpec where
  ObjectMeta : ObjectMeta := {}
  Spec : PodSpec := {}
  deriving DecidableEq, Repr

/-! ## `pkg/common/util/util.go` -/

/-- The magic number `0xbeef` with which `GetContainerExitCode` starts. -/
def exitCodeSentinel : Int := 0xbeef

/-- One iteration of the loop of `GetContainerExitCode`. -/
def exitCodeStep (name : String) (exitCode : Int) (status : ContainerStatus) : Int :=
  let state := status.State
  match decide (status.Name = name), state.Terminated with
  | true, some terminated => terminated.ExitCode
  | _, _ => exitCode

/-- Function `GetContainerExitCode(pod *corev1.Pod, name string) int32`: a nil `pod` panics at
`pod.Status`; otherwise the loop overwrites `exitCode` at every status with the given name
and a non-nil `Terminated`. -/
def GetContainerExitCode (pod : Option Pod) (name : String) : Except Panic Int :=
  match pod with
  | none => .error .nilPointerDereference
  | some p => .ok (p.Status.ContainerStatuses.foldl (exitCodeStep name) exitCodeSentinel)

/-- The loop condition `status.Name == name && state.Terminated != nil`. -/
def terminatedAs (name : String) (status : ContainerStatus) : Prop :=
  status.Name = name ∧ status.State.Terminated ≠ none

instance (name : String) (status : ContainerStatus) : Decidable (terminatedAs name status) :=
  inferInstanceAs (Decidable (status.Name = name ∧ status.State.Terminated ≠ none))

/-- A pointer `&list[i]` into the argument slice, kept as the index `i` it points at. -/
structure PodRef where
  index : Nat
  deriving DecidableEq, Repr

/-- Type `ObjectFilterFunction`, possibly nil; the object handed to it is `&list[i]`. -/
abbrev ObjectFilterFunction := Option (Pod → Bool)

/-- Body of the loop of `ConvertPodListWithFilter` at index `i`, where `obj` is `&list[i]`. -/
def convertStep (pass : ObjectFilterFunction) (ret : List PodRef) (entry : Nat × Pod) :
    List PodRef :=
  let obj := entry.2
  match pass with
  | some f => if f obj then ret ++ [⟨entry.1⟩] else ret
  | none => ret ++ [⟨entry.1⟩]

/-- Function `ConvertPodListWithFilter(list []corev1.Pod, pass ObjectFilterFunction) []*corev1.Pod`:
nil for a nil list, else the loop `for i := range list` appending `&list[i]`. -/
def ConvertPodListWithFilter (list : Option (List Pod)) (pass : ObjectFilterFunction) :
    Option (List PodRef) :=
  match list with
  | none => none
  | some l => some (l.enum.foldl (convertStep pass) [])

/-- Reading through a pointer `&list[i]`. -/
def PodRef.deref (list : List Pod) (r : PodRef) : Option Pod := list[r.index]?

/-! ## Go standard library: `strconv.Atoi`, `strings.ToLower` -/

/-- The two causes carried by a `*strconv.NumError`. -/
inductive NumErrKind where
  | ErrSyntax
  | ErrRange
  deriving DecidableEq, Repr

/-- Error values returned by the code in scope: one built by `fmt.Errorf`, or the
`*strconv.NumError` of `strconv.Atoi`. -/
inductive GoError where
  | errorf (msg : String)
  | numError (Func : String) (Num : String) (Err : NumErrKind)
  deriving DecidableEq, Repr

/-- Value of a decimal digit byte, `none` for any other byte. -/
def digitValue (c : Char) : Option Nat :=
  if '0' ≤ c ∧ c ≤ '9' then some (c.toNat - '0'.toNat) else none

/-- Largest `uint64`. -/
def maxUint64 : Nat := 2 ^ 64 - 1

/-- The digit loop of `strconv.ParseUint(s, 10, 64)`: a non-digit is a syntax error, a value
above `maxUint64` a range error, whichever the scan meets first. -/
def parseUintLoop : List Char → Nat → Except NumErrKind Nat
  | [], n => .ok n
  | c :: cs, n =>
    match digitValue c with
    | none => .error .ErrSyntax
    | some d =>
      if n ≥ maxUint64 / 10 + 1 then .error .ErrRange
      else if n * 10 + d > maxUint64 then .error .ErrRange
      else parseUintLoop cs (n * 10 + d)

/-- Function `strconv.ParseUint(s, 10, 64)`. -/
def ParseUint (s : List Char) : Except NumErrKind Nat :=
  match s with
  | [] => .error .ErrSyntax
  | _ => parseUintLoop s 0

/-- The part of `strconv.ParseInt(s, 10, 0)` after the sign is stripped, for a 64-bit `int`. -/
def parseIntSigned (neg : Bool) (s : List Char) : Except NumErrKind Int :=
  match ParseUint s with
  | .error .ErrSyntax => .error .ErrSyntax
  | .error .ErrRange => .error .ErrRange
  | .ok un =>
    if !neg && un ≥ 2 ^ 63 then .error .ErrRange
    else if neg && un > 2 ^ 63 then .error .ErrRange
    else .ok (if neg then -(un : Int) else (un : Int))

/-- Function `strconv.ParseInt(s, 10, 0)` for a 64-bit `int`. -/
def ParseInt (s : List Char) : Except NumErrKind Int :=
  match s with
  | [] => .error .ErrSyntax
  | c :: r =>
    if c = '+' then parseIntSigned false r
    else if c = '-' then parseIntSigned true r
    else parseIntSigned false (c :: r)

/-- Function `strconv.Atoi` for a 64-bit `int`: an optional sign followed by one or more
decimal digits, within the `int64` range. Its fast path for short strings computes the same
result as `ParseInt(s, 10, 0)`, which is what is modelled. -/
def Atoi (s : String) : Except GoError Int :=
  match ParseInt s.data with
  | .ok n => .ok n
  | .error k => .error (.numError "Atoi" s k)

/-- Function `strings.ToLower` on ASCII strings (the only use is on an ASCII constant). -/
def ToLower (s : String) : String := ⟨s.data.map Char.toLower⟩

/-! ## Kubeflow API types -/

/-- Type `commonv1.ReplicaType`. -/
abbrev ReplicaType := String

/-- Fields of `commonv1.ReplicaSpec`. -/
structure ReplicaSpec where
  Replicas : Option Int := none
  Template : PodTemplateSpec := {}
  RestartPolicy : String := ""
  deriving DecidableEq, Repr

/-- Fields of `commonv1.RunPolicy`. -/
structure RunPolicy where
  CleanPodPolicy : Option String := none
  TTLSecondsAfterFinished : Option Int := none
  ActiveDeadlineSeconds : Option Int := none
  BackoffLimit : Option Int := none
  deriving DecidableEq, Repr

/-- Struct `RDZVConf`, a key-value pair. -/
structure RDZVConf where
  Key : String := ""
  Value : String := ""
  deriving DecidableEq, Repr

/-- Fields of `v2beta2.MetricSpec`. -/
structure MetricSpec where
  Type_ : String := ""
  deriving DecidableEq, Repr

/-- Struct `ElasticPolicy`, field by field as `DeepCopyInto` lists them. -/
structure ElasticPolicy where
  MinReplicas : Option Int := none
  MaxReplicas : Option Int := none
  RDZVBackend : Option String := none
  RDZVPort : Option Int := none
  RDZVHost : Option String := none
  RDZVID : Option String := none
  RDZVConf : Option (List RDZVConf) := none
  Standalone : Option Bool := none
  NProcPerNode : Option Int := none
  MaxRestarts : Option Int := none
  Metrics : Option (List MetricSpec) := none
  SuccessPolicy : Option String := none
  FailurePolicy : Option String := none
  deriving DecidableEq, Repr

/-- Struct `PyTorchJobSpec`; `PyTorchReplicaSpecs` is a possibly nil
`map[commonv1.ReplicaType]*commonv1.ReplicaSpec`. -/
structure PyTorchJobSpec where
  RunPolicy : RunPolicy := {}
  ElasticPolicy : Option ElasticPolicy := none
  PyTorchReplicaSpecs : Option (List (ReplicaType × Option ReplicaSpec)) := none
  deriving DecidableEq, Repr

/-- Struct `PyTorchJob`. -/
structure PyTorchJob where
  ObjectMeta : ObjectMeta := {}
  Spec : PyTorchJobSpec := {}
  deriving DecidableEq, Repr

/-- Modelled from the spec: the constant `PyTorchReplicaTypeMaster` is declared in the API
package outside the files at hand; it names the Master (coordinator) role. -/
def PyTorchReplicaTypeMaster : ReplicaType := "Master"

/-- Label key `volcanov1beta1.PodPreemptable`, spelled out in the comment of `setPodLabel`. -/
def PodPreemptable : String := "volcano.sh/preemptable"

/-- Go map read `m[k]` of a pointer-valued map: nil for a nil map and for an absent key. -/
def replicaSpecAt (m : Option (List (ReplicaType × Option ReplicaSpec))) (k : ReplicaType) :
    Option ReplicaSpec :=
  match m with
  | none => none
  | some l => (mapGet l k).join

/-! ## `pkg/controller.v1/pytorch/label.go` -/

/-- Dynamic value of the `obj interface{}` argument: the nil interface, a `*PyTorchJob`
(possibly a nil pointer of that type), or a value of another type given by its `%+v` text. -/
inductive Obj where
  | nilInterface
  | pyTorchJob (p : Option PyTorchJob)
  | other (text : String)
  deriving DecidableEq, Repr

/-- Statement `podTemplateSpec.Labels[key] = value`; Go panics when the map is nil. -/
def setLabel (t : PodTemplateSpec) (key value : String) : Except Panic PodTemplateSpec :=
  match t.ObjectMeta.Labels with
  | none => .error .assignmentToNilMap
  | some m => .ok { t with ObjectMeta := { t.ObjectMeta with Labels := some (mapSet m key value) } }

/-- Outcome of a call that returns `error` and may have written through its pointer
argument: the pointee afterwards and the returned error (`none` is a nil error). -/
abbrev LabelOutcome := Except Panic (Option PodTemplateSpec × Option GoError)

/-- The tail of `setPodLabel`: write the label and `return nil`. -/
def writePreemptable (t : PodTemplateSpec) (value : String) : LabelOutcome :=
  match setLabel t PodPreemptable value with
  | .error p => .error p
  | .ok t1 => .ok (some t1, none)

/-- Statement `if len(podTemplateSpec.Labels) == 0 { podTemplateSpec.Labels = make(map[string]string) }`. -/
def initLabels (t0 : PodTemplateSpec) : PodTemplateSpec :=
  if goLen t0.ObjectMeta.Labels = 0 then
    { t0 with ObjectMeta := { t0.ObjectMeta with Labels := some [] } }
  else t0

/-- Function `setPodLabel(obj interface{}, podTemplateSpec *corev1.PodTemplateSpec, rtype, index string) error`,
statement by statement. -/
def setPodLabel (obj : Obj) (podTemplateSpec : Option PodTemplateSpec) (rtype index : String) :
    LabelOutcome :=
  match obj with
  | .nilInterface =>
    .ok (podTemplateSpec, some (.errorf ("<nil>" ++ " is not a type of PyTorchJob")))
  | .other text =>
    .ok (podTemplateSpec, some (.errorf (text ++ " is not a type of PyTorchJob")))
  | .pyTorchJob pytorchjob =>
    match podTemplateSpec with
    | none => .error .nilPointerDereference
    | some t0 =>
      let t := initLabels t0
      match pytorchjob with
      | none => .error .nilPointerDereference
      | some job =>
        if replicaSpecAt job.Spec.PyTorchReplicaSpecs PyTorchReplicaTypeMaster ≠ none then
          if rtype = ToLower PyTorchReplicaTypeMaster then
            writePreemptable t "false"
          else
            writePreemptable t "true"
        else
          match Atoi index with
          | .error err => .ok (some t, some err)
          | .ok rank =>
            if rank = 0 then
              writePreemptable t "false"
            else
              writePreemptable t "true"

/-- The value of the preemptable label on a pod template, if any. -/
def preemptableOf (t : PodTemplateSpec) : Option String :=
  match t.ObjectMeta.Labels with
  | none => none
  | some m => mapGet m PodPreemptable

/-- A job has a Master role when its replica-spec map holds a non-nil entry for it. -/
def hasMaster (job : PyTorchJob) : Prop :=
  replicaSpecAt job.Spec.PyTorchReplicaSpecs PyTorchReplicaTypeMaster ≠ none

instance (job : PyTorchJob) : Decidable (hasMaster job) :=
  inferInstanceAs (Decidable (replicaSpecAt _ _ ≠ none))

/-- The branch structure of `setPodLabel` for a job and a non-nil template: the label value
it writes, or the error it returns, from Master presence, `rtype` and `index` alone. -/
def preemptableDecision (master : Bool) (rtype index : String) : Except GoError String :=
  if master then
    if rtype = ToLower PyTorchReplicaTypeMaster then .ok "false" else .ok "true"
  else
    match Atoi index with
    | .error err => .error err
    | .ok rank => if rank = 0 then .ok "false" else .ok "true"

/-- Shape of a decimal integer literal: an optional sign, then one or more decimal digits. -/
def isDecimalLiteral (s : String) : Bool :=
  match s.data with
  | [] => false
  | c :: r =>
    if c = '+' ∨ c = '-' then !r.isEmpty && r.all (fun d => (digitValue d).isSome)
    else (c :: r).all (fun d => (digitValue d).isSome)

/-- The value of any label on a pod template (reading a nil map finds nothing). -/
def labelAt (t : PodTemplateSpec) (key : String) : Option String :=
  match t.ObjectMeta.Labels with
  | none => none
  | some m => mapGet m key

/-! ## `pkg/common/util/util.go`, continued -/

/-- Function `ConvertPodList(list []corev1.Pod) []*corev1.Pod`: nil for a nil list, else the
loop `for i := range list` appending `&list[i]`. -/
def ConvertPodList (list : Option (List Pod)) : Option (List PodRef) :=
  match list with
  | none => none
  | some l => some (l.enum.foldl (fun ret entry => ret ++ [(⟨entry.1⟩ : PodRef)]) [])

/-- Entries of a possibly nil Go map in the order `range` visits them. The association list
lists the entries in that order; Go leaves the order open, so any permutation of the list
stands for the same map. -/
def rangeEntries {β : Type} (m : Option (List (String × β))) : List (String × β) :=
  match m with
  | none => []
  | some l => l

/-- Keys of a possibly nil Go map, in the order `range` visits them. -/
def mapKeys {β : Type} (m : Option (List (String × β))) : List String :=
  (rangeEntries m).map Prod.fst

/-- Function `GetReplicaTypes(specs map[commonv1.ReplicaType]*commonv1.ReplicaSpec)`:
starts from an empty non-nil slice and appends every key met by `range specs`. -/
def GetReplicaTypes (specs : Option (List (ReplicaType × Option ReplicaSpec))) :
    List ReplicaType :=
  (rangeEntries specs).foldl (fun keys entry => keys ++ [entry.1]) []

/-! ## `pkg/apis/pytorch/v1/zz_generated.deepcopy.go` -/

/-- Deep copies of the library types, which live outside the files at hand:
`commonv1.RunPolicy`, `commonv1.ReplicaSpec` and `v2beta2.MetricSpec`. Each generated
`DeepCopyInto` starts with `*out = *in`, so what it leaves in `out` depends on `in` only. -/
structure LibraryCopies where
  runPolicy : RunPolicy → RunPolicy
  replicaSpec : ReplicaSpec → ReplicaSpec
  metricSpec : MetricSpec → MetricSpec

/-- The library deep copies return values equal to their receivers. -/
def LibraryCopies.Faithful (ext : LibraryCopies) : Prop :=
  (∀ r, ext.runPolicy r = r) ∧ (∀ r, ext.replicaSpec r = r) ∧ (∀ m, ext.metricSpec m = m)

/-- Block `if in.F != nil { *out = new(T); **out = **in }` on a pointer field, where
`outField` is what `out.F` holds before the block. -/
def copyPtr {α : Type} (inField outField : Option α) : Option α :=
  match inField with
  | some v => some v
  | none => outField

/-- Go builtin `copy(dst, src)`: overwrites the first `min(len(dst), len(src))` elements. -/
def goCopy {α : Type} (dst src : List α) : List α :=
  src.take dst.length ++ dst.drop src.length

/-- Loop `for i := range *in { (*in)[i].DeepCopyInto(&(*out)[i]) }` over metric specs. -/
def copyMetricsLoop (ext : LibraryCopies) (src : List MetricSpec) (dst : List MetricSpec) :
    List MetricSpec :=
  src.enum.foldl (fun out entry => out.set entry.1 (ext.metricSpec entry.2)) dst

/-- Method `(in *ElasticPolicy) DeepCopyInto(out *ElasticPolicy)`, block by block; the result
is the content of `*out` afterwards. -/
def ElasticPolicy.DeepCopyInto (ext : LibraryCopies) (in_ _out : ElasticPolicy) :
    ElasticPolicy :=
  let out := in_
  let out := { out with MinReplicas := copyPtr in_.MinReplicas out.MinReplicas }
  let out := { out with MaxReplicas := copyPtr in_.MaxReplicas out.MaxReplicas }
  let out := { out with RDZVBackend := copyPtr in_.RDZVBackend out.RDZVBackend }
  let out := { out with RDZVPort := copyPtr in_.RDZVPort out.RDZVPort }
  let out := { out with RDZVHost := copyPtr in_.RDZVHost out.RDZVHost }
  let out := { out with RDZVID := copyPtr in_.RDZVID out.RDZVID }
  let out :=
    match in_.RDZVConf with
    | some l => { out with RDZVConf := some (goCopy (List.replicate l.length {}) l) }
    | none => out
  let out := { out with Standalone := copyPtr in_.Standalone out.Standalone }
  let out := { out with NProcPerNode := copyPtr in_.NProcPerNode out.NProcPerNode }
  let out := { out with MaxRestarts := copyPtr in_.MaxRestarts out.MaxRestarts }
  let out :=
    match in_.Metrics with
    | some l => { out with Metrics := some (copyMetricsLoop ext l (List.replicate l.length {})) }
    | none => out
  let out := { out with SuccessPolicy := copyPtr in_.SuccessPolicy out.SuccessPolicy }
  let out := { out with FailurePolicy := copyPtr in_.FailurePolicy out.FailurePolicy }
  out

/-- Method `(in *ElasticPolicy) DeepCopy() *ElasticPolicy`. -/
def ElasticPolicy.DeepCopy (ext : LibraryCopies) (in_ : Option ElasticPolicy) :
    Option ElasticPolicy :=
  match in_ with
  | none => none
  | some e => some (ElasticPolicy.DeepCopyInto ext e {})

/-- Body of the loop `for key, val := range *in` of `PyTorchJobSpec.DeepCopyInto`: a nil value
is stored at once and then again through `outVal`, a non-nil one is copied and stored. -/
def replicaSpecsStep (ext : LibraryCopies) (out : List (ReplicaType × Option ReplicaSpec))
    (entry : ReplicaType × Option ReplicaSpec) : List (ReplicaType × Option ReplicaSpec) :=
  match entry.2 with
  | none => mapSet (mapSet out entry.1 none) entry.1 none
  | some val => mapSet out entry.1 (some (ext.replicaSpec val))

/-- Method `(in *PyTorchJobSpec) DeepCopyInto(out *PyTorchJobSpec)`; the result is the content
of `*out` afterwards. -/
def PyTorchJobSpec.DeepCopyInto (ext : LibraryCopies) (in_ _out : PyTorchJobSpec) :
    PyTorchJobSpec :=
  let out := in_
  let out := { out with RunPolicy := ext.runPolicy in_.RunPolicy }
  let out :=
    match in_.ElasticPolicy with
    | some e => { out with ElasticPolicy := some (ElasticPolicy.DeepCopyInto ext e {}) }
    | none => out
  let out :=
    match in_.PyTorchReplicaSpecs with
    | some m => { out with PyTorchReplicaSpecs := some (m.foldl (replicaSpecsStep ext) []) }
    | none => out
  out

/-- Library deep copies that copy every field: the identity on values. -/
def valueCopies : LibraryCopies :=
  { runPolicy := fun r => r, replicaSpec := fun r => r, metricSpec := fun m => m }

/-! ## Concrete inputs -/

/-- A pod whose "trainer" container is running while its "sidecar" has terminated. -/
def runningPod : Pod :=
  { Status := { ContainerStatuses :=
      [ { Name := "trainer", State := { Running := some {} } },
        { Name := "sidecar", State := { Terminated := some { ExitCode := 1 } } } ] } }

/-- A pod listing "trainer" three times: terminated with 1, terminated with 7, then running. -/
def restartedPod : Pod :=
  { Status := { ContainerStatuses :=
      [ { Name := "trainer", State := { Terminated := some { ExitCode := 1 } } },
        { Name := "trainer", State := { Terminated := some { ExitCode := 7 } } },
        { Name := "trainer", State := { Running := some {} } } ] } }

/-- A job with a Master and a Worker role. -/
def masterJob : PyTorchJob :=
  { Spec :=
      { PyTorchReplicaSpecs :=
          some [("Worker", some { Replicas := some 3 }), ("Master", some { Replicas := some 1 })] } }

/-- A job with only a Master role. -/
def soloMasterJob : PyTorchJob :=
  { ObjectMeta := { Name := "solo" },
    Spec := { PyTorchReplicaSpecs := some [("Master", some {})] } }

/-- A job with a Worker role only. -/
def workerJob : PyTorchJob :=
  { Spec := { PyTorchReplicaSpecs := some [("Worker", some { Replicas := some 4 })] } }

/-- A pod template without labels (nil map). -/
def bareTemplate : PodTemplateSpec := {}

/-- A pod template that already carries labels, the preemptable one among them. -/
def labelledTemplate : PodTemplateSpec :=
  { ObjectMeta := { Labels := some [("app", "train"), ("volcano.sh/preemptable", "true")] } }

/-- The labelled template after its preemptable label is set to "false". -/
def relabelledTemplate : PodTemplateSpec :=
  { ObjectMeta := { Labels := some [("app", "train"), ("volcano.sh/preemptable", "false")] } }

/-- Three pods, the second named "skip". -/
def threePods : List Pod :=
  [ { ObjectMeta := { Name := "a" } }, { ObjectMeta := { Name := "skip" } },
    { ObjectMeta := { Name := "c" } } ]

/-- An elastic policy with some fields set and others nil. -/
def sampleElasticPolicy : ElasticPolicy :=
  { MinReplicas := some 1, MaxReplicas := some 4, RDZVHost := some "rdzv",
    RDZVConf := some [{ Key := "timeout", Value := "60" }, { Key := "join", Value := "1" }],
    Standalone := some false, Metrics := some [{ Type_ := "Resource" }, { Type_ := "Pods" }],
    SuccessPolicy := some "AllWorkers" }

/-- A job spec with an elastic policy, a Worker role and a Master key mapped to nil. -/
def sampleJobSpec : PyTorchJobSpec :=
  { ElasticPolicy := some sampleElasticPolicy,
    PyTorchReplicaSpecs := some [("Worker", some { Replicas := some 2 }), ("Master", none)] }

/-- A job whose Master key is present but mapped to a nil replica spec. -/
def nilMasterJob : PyTorchJob := { Spec := sampleJobSpec }

/-- A pod whose "trainer" container terminated with exit code `0xbeef` (48879). -/
def beefPod : Pod :=
  { Status := { ContainerStatuses :=
      [ { Name := "trainer", State := { Terminated := some { ExitCode := 0xbeef } } } ] } }

end TrainingOperator

namespace TrainingOperator

/-! ## Exit codes: `GetContainerExitCode` -/

theorem exitCodeStep_of_not {name : String} {s : ContainerStatus} (c : Int)
    (h : ¬ terminatedAs name s) : exitCodeStep name c s = c := by
  unfold terminatedAs at h
  unfold exitCodeStep
  cases ht : s.State.Terminated with
  | none => by_cases hn : s.Name = name <;> simp [hn, ht]
  | some t =>
    have hn : s.Name ≠ name := fun hn => h ⟨hn, by simp [ht]⟩
    simp [hn]

theorem exitCodeStep_of_terminated {name : String} {s : ContainerStatus}
    {t : ContainerStateTerminated} (c : Int) (hn : s.Name = name)
    (ht : s.State.Terminated = some t) : exitCodeStep name c s = t.ExitCode := by
  unfold exitCodeStep
  simp [hn, ht]

theorem foldl_exitCodeStep_of_not {name : String} (l : List ContainerStatus) (c : Int)
    (h : ∀ s ∈ l, ¬ terminatedAs name s) : l.foldl (exitCodeStep name) c = c := by
  induction l generalizing c with
  | nil => rfl
  | cons a l ih =>
    rw [List.foldl_cons, exitCodeStep_of_not c (h a (List.mem_cons_self a l))]
    exact ih c (fun s hs => h s (List.mem_cons_of_mem a hs))

/-- The loop returns the exit code of a terminated entry of the given name after which no
such entry follows, whatever precedes it. -/
theorem foldl_exitCodeStep_last {name : String} (pre post : List ContainerStatus)
    (s : ContainerStatus) (t : ContainerStateTerminated) (c : Int) (hn : s.Name = name)
    (ht : s.State.Terminated = some t) (hpost : ∀ u ∈ post, ¬ terminatedAs name u) :
    (pre ++ s :: post).foldl (exitCodeStep name) c = t.ExitCode := by
  rw [List.foldl_append, List.foldl_cons, exitCodeStep_of_terminated _ hn ht]
  exact foldl_exitCodeStep_of_not post _ hpost

/-- A list with a terminated entry of the given name splits at the last such entry. -/
theorem exists_last_terminated {name : String} (l : List ContainerStatus)
    (h : ∃ s ∈ l, terminatedAs name s) :
    ∃ pre s t post, l = pre ++ s :: post ∧ s.Name = name ∧ s.State.Terminated = some t ∧
      ∀ u ∈ post, ¬ terminatedAs name u := by
  induction l with
  | nil => obtain ⟨s, hs, _⟩ := h; cases hs
  | cons a l ih =>
    by_cases hl : ∃ s ∈ l, terminatedAs name s
    · obtain ⟨pre, s, t, post, hsplit, hn, ht, hpost⟩ := ih hl
      exact ⟨a :: pre, s, t, post, by rw [hsplit]; rfl, hn, ht, hpost⟩
    · obtain ⟨s, hs, hsn, hst⟩ := h
      have hsa : s = a := by
        rcases List.mem_cons.mp hs with rfl | hmem
        · rfl
        · exact absurd ⟨s, hmem, hsn, hst⟩ hl
      subst hsa
      obtain ⟨t, ht⟩ := Option.ne_none_iff_exists'.mp hst
      exact ⟨[], s, t, l, rfl, hsn, ht, fun u hu hterm => hl ⟨u, hu, hterm⟩⟩

/-- C1: when no container status has both the given name and a non-nil terminated state
(an empty list and an absent name included), `GetContainerExitCode` returns `0xbeef`. -/
theorem GetContainerExitCode_sentinel (pod : Pod) (name : String)
    (h : ∀ s ∈ pod.Status.ContainerStatuses, ¬ (s.Name = name ∧ s.State.Terminated ≠ none)) :
    GetContainerExitCode (some pod) name = .ok 0xbeef := by
  unfold GetContainerExitCode
  simp only []
  rw [foldl_exitCodeStep_of_not _ _ h]
  rfl

/-- Witness of C1: a pod whose container "trainer" is still running, next to a terminated
container of another name. -/
theorem GetContainerExitCode_sentinel_witness :
    (∀ s ∈ runningPod.Status.ContainerStatuses,
        ¬ (s.Name = "trainer" ∧ s.State.Terminated ≠ none)) ∧
      GetContainerExitCode (some runningPod) "trainer" = .ok 0xbeef :=
  ⟨by decide, GetContainerExitCode_sentinel runningPod "trainer" (by decide)⟩

/-- C2: when some container status has the given name and is terminated, the status list
splits at the last such entry, whose exit code `GetContainerExitCode` returns; entries after
it (same name but not terminated, or other names) do not override it. -/
theorem GetContainerExitCode_last_terminated (pod : Pod) (name : String)
    (h : ∃ s ∈ pod.Status.ContainerStatuses, s.Name = name ∧ s.State.Terminated ≠ none) :
    ∃ pre s t post, pod.Status.ContainerStatuses = pre ++ s :: post ∧
      s.Name = name ∧ s.State.Terminated = some t ∧
      (∀ u ∈ post, ¬ (u.Name = name ∧ u.State.Terminated ≠ none)) ∧
      GetContainerExitCode (some pod) name = .ok t.ExitCode := by
  obtain ⟨pre, s, t, post, hsplit, hn, ht, hpost⟩ := exists_last_terminated _ h
  refine ⟨pre, s, t, post, hsplit, hn, ht, hpost, ?_⟩
  unfold GetContainerExitCode
  simp only []
  rw [hsplit, foldl_exitCodeStep_last pre post s t _ hn ht hpost]

/-- Witness of C2: "trainer" terminated twice (codes 1 then 7) and is listed once more,
not terminated, afterwards. -/
theorem GetContainerExitCode_last_terminated_witness :
    (∃ s ∈ restartedPod.Status.ContainerStatuses,
        s.Name = "trainer" ∧ s.State.Terminated ≠ none) ∧
      ∃ pre s t post, restartedPod.Status.ContainerStatuses = pre ++ s :: post ∧
        s.Name = "trainer" ∧ s.State.Terminated = some t ∧
        (∀ u ∈ post, ¬ (u.Name = "trainer" ∧ u.State.Terminated ≠ none)) ∧
        GetContainerExitCode (some restartedPod) "trainer" = .ok t.ExitCode :=
  ⟨by decide, GetContainerExitCode_last_terminated restartedPod "trainer" (by decide)⟩

/-- C3, as stated, fails: a container that terminated with the signed 32-bit exit code
`0xbeef` makes `GetContainerExitCode` return the sentinel value. -/
theorem GetContainerExitCode_sentinel_collision :
    (∃ s ∈ beefPod.Status.ContainerStatuses, s.Name = "trainer" ∧
        ∃ t, s.State.Terminated = some t ∧ isInt32 t.ExitCode) ∧
      GetContainerExitCode (some beefPod) "trainer" = .ok 0xbeef := by
  decide

/-- C3, amended: when the named container has a terminated state and no terminated entry of
that name carries the exit code `0xbeef`, the result differs from the sentinel `0xbeef`. -/
theorem GetContainerExitCode_ne_sentinel (pod : Pod) (name : String)
    (h : ∃ s ∈ pod.Status.ContainerStatuses, s.Name = name ∧ s.State.Terminated ≠ none)
    (hcode : ∀ s ∈ pod.Status.ContainerStatuses, s.Name = name →
      ∀ t, s.State.Terminated = some t → t.ExitCode ≠ 0xbeef) :
    ∃ c, GetContainerExitCode (some pod) name = .ok c ∧ c ≠ 0xbeef := by
  obtain ⟨pre, s, t, post, hsplit, hn, ht, hpost⟩ := exists_last_terminated _ h
  refine ⟨t.ExitCode, ?_, ?_⟩
  · unfold GetContainerExitCode
    simp only []
    rw [hsplit, foldl_exitCodeStep_last pre post s t _ hn ht hpost]
  · exact hcode s (by rw [hsplit]; simp) hn t ht

/-- Witness of C3 amended, on the pod whose "trainer" last terminated with code 7. -/
theorem GetContainerExitCode_ne_sentinel_witness :
    ∃ c, GetContainerExitCode (some restartedPod) "trainer" = .ok c ∧ c ≠ 0xbeef :=
  GetContainerExitCode_ne_sentinel restartedPod "trainer" (by decide) (by decide)

/-- C7, as stated, fails: on a nil pod reference `GetContainerExitCode` panics with a nil
pointer dereference instead of returning a code. -/
theorem GetContainerExitCode_nil_pod_panics :
    GetContainerExitCode none "trainer" = .error .nilPointerDereference ∧
      ¬ ∃ c, GetContainerExitCode none "trainer" = .ok c :=
  ⟨rfl, fun ⟨_, hc⟩ => Except.noConfusion hc⟩

/-- C7, amended: for every non-nil pod reference `GetContainerExitCode` returns a code
without failing, and with a missing or empty status list that code is the sentinel. -/
theorem GetContainerExitCode_total (pod : Pod) (name : String) :
    (∃ c, GetContainerExitCode (some pod) name = .ok c) ∧
      GetContainerExitCode
        (some { pod with Status := { pod.Status with ContainerStatuses := [] } }) name
        = .ok 0xbeef :=
  ⟨⟨_, rfl⟩, rfl⟩

/-! ## Pod lists: `ConvertPodListWithFilter` -/

/-- The loop with a filter appends, in order, the indices of the entries that pass. -/
theorem foldl_convertStep_some (f : Pod → Bool) (xs : List (Nat × Pod)) (acc : List PodRef) :
    xs.foldl (convertStep (some f)) acc
      = acc ++ (xs.filter (fun e => f e.2)).map (fun e => (⟨e.1⟩ : PodRef)) := by
  induction xs generalizing acc with
  | nil => simp
  | cons x xs ih =>
    rw [List.foldl_cons, ih]
    by_cases hx : f x.2 = true
    · simp [convertStep, List.filter_cons, hx]
    · simp [convertStep, List.filter_cons, hx]

/-- C10: for a non-nil list and a non-nil filter, `ConvertPodListWithFilter` returns a non-nil
slice of references that (1) points at index `i` exactly when `list[i]` passes the filter,
(2) is strictly increasing in the index, so each element occurs once and in list order,
(3) dereferences to the passing elements in order, and (4) is no longer than the list;
for a nil list it returns nil. -/
theorem ConvertPodListWithFilter_spec (list : List Pod) (pass : Pod → Bool) :
    (∃ refs, ConvertPodListWithFilter (some list) (some pass) = some refs ∧
      (∀ i, (⟨i⟩ : PodRef) ∈ refs ↔ ∃ pod, list[i]? = some pod ∧ pass pod = true) ∧
      refs.Pairwise (fun a b => a.index < b.index) ∧
      refs.map (PodRef.deref list) = (list.filter pass).map some ∧
      refs.length ≤ list.length) ∧
    ∀ p : ObjectFilterFunction, ConvertPodListWithFilter none p = none := by
  refine ⟨⟨_, rfl, ?_, ?_, ?_, ?_⟩, fun _ => rfl⟩
  · intro i
    rw [foldl_convertStep_some, List.nil_append]
    constructor
    · intro hi
      obtain ⟨e, he, hei⟩ := List.mem_map.mp hi
      obtain ⟨hmem, hpass⟩ := List.mem_filter.mp he
      have hidx : e.1 = i := by injection hei
      exact ⟨e.2, by rw [← hidx]; exact List.mem_enum_iff_getElem?.mp hmem, hpass⟩
    · rintro ⟨pod, hget, hpass⟩
      exact List.mem_map.mpr ⟨(i, pod),
        List.mem_filter.mpr ⟨List.mem_enum_iff_getElem?.mpr hget, hpass⟩, rfl⟩
  · rw [foldl_convertStep_some, List.nil_append]
    have hsub : ((list.enum.filter (fun e => pass e.2)).map Prod.fst).Sublist
        (List.range list.length) := by
      rw [← List.enum_map_fst]
      exact List.Sublist.map _ (List.filter_sublist _)
    have hlt : ((list.enum.filter (fun e => pass e.2)).map Prod.fst).Pairwise (· < ·) :=
      List.Pairwise.sublist hsub (List.pairwise_lt_range _)
    rw [List.pairwise_map] at hlt ⊢
    exact hlt
  · rw [foldl_convertStep_some, List.nil_append, List.map_map]
    have hderef : ∀ e ∈ list.enum.filter (fun e => pass e.2),
        (PodRef.deref list ∘ fun e => (⟨e.1⟩ : PodRef)) e = (some ∘ Prod.snd) e := by
      intro e he
      exact List.mem_enum_iff_getElem?.mp (List.mem_filter.mp he).1
    rw [List.map_congr_left hderef, ← List.map_map]
    congr 1
    have hfm := List.filter_map (f := Prod.snd) (p := pass) (l := list.enum)
    rw [List.enum_map_snd] at hfm
    exact hfm.symm
  · rw [foldl_convertStep_some, List.nil_append, List.length_map]
    exact (List.length_filter_le _ _).trans (le_of_eq List.enum_length)

/-! ## Go maps -/

theorem mapGet_mapSet_self {β : Type} (m : List (String × β)) (k : String) (v : β) :
    mapGet (mapSet m k v) k = some v := by
  induction m with
  | nil => simp [mapSet, mapGet]
  | cons e m ih =>
    obtain ⟨k', v'⟩ := e
    by_cases hk : k' = k
    · simp [mapSet, mapGet, hk]
    · simp [mapSet, mapGet, hk, ih]

theorem mapGet_mapSet_ne {β : Type} (m : List (String × β)) {k j : String} (v : β)
    (hj : j ≠ k) : mapGet (mapSet m k v) j = mapGet m j := by
  induction m with
  | nil => simp [mapSet, mapGet, Ne.symm hj]
  | cons e m ih =>
    obtain ⟨k', v'⟩ := e
    by_cases hk : k' = k
    · subst hk
      simp [mapSet, mapGet, Ne.symm hj]
    · by_cases hkj : k' = j
      · subst hkj
        simp [mapSet, mapGet, hk]
      · simp [mapSet, mapGet, hk, hkj, ih]

theorem mapSet_mapSet_self {β : Type} (m : List (String × β)) (k : String) (v : β) :
    mapSet (mapSet m k v) k v = mapSet m k v := by
  induction m with
  | nil => simp [mapSet]
  | cons e m ih =>
    obtain ⟨k', v'⟩ := e
    by_cases hk : k' = k
    · simp [mapSet, hk]
    · simp [mapSet, hk, ih]

theorem mapSet_ne_nil {β : Type} (m : List (String × β)) (k : String) (v : β) :
    mapSet m k v ≠ [] := by
  cases m with
  | nil => simp [mapSet]
  | cons e m =>
    obtain ⟨k', v'⟩ := e
    by_cases hk : k' = k <;> simp [mapSet, hk]

/-! ## Preemption labels: `setPodLabel` -/

/-- After the initialisation statement the label map is non-nil. -/
theorem initLabels_labels (t : PodTemplateSpec) :
    ∃ m, (initLabels t).ObjectMeta.Labels = some m := by
  unfold initLabels
  cases hl : t.ObjectMeta.Labels with
  | none => exact ⟨[], by simp [goLen]⟩
  | some m =>
    by_cases hm : goLen (some m) = 0
    · exact ⟨[], by simp [hm]⟩
    · exact ⟨m, by simp [hm, hl]⟩

/-- The initialisation statement does not change what the preemptable label reads. -/
theorem preemptableOf_initLabels (t : PodTemplateSpec) :
    preemptableOf (initLabels t) = preemptableOf t := by
  unfold initLabels preemptableOf
  cases hl : t.ObjectMeta.Labels with
  | none => simp [goLen, mapGet]
  | some m =>
    cases m with
    | nil => simp [goLen, mapGet]
    | cons e m => simp [goLen, hl]

theorem initLabels_idem (t : PodTemplateSpec) : initLabels (initLabels t) = initLabels t := by
  unfold initLabels
  cases hl : t.ObjectMeta.Labels with
  | none => simp [goLen]
  | some m =>
    cases m with
    | nil => simp [goLen]
    | cons e m => simp [goLen, hl]

/-- Writing the label after the initialisation statement succeeds; the template then reads
the value written, is left alone by the initialisation statement, and is a fixed point of
writing the same value again. -/
theorem writePreemptable_initLabels (t : PodTemplateSpec) (v : String) :
    ∃ t1, writePreemptable (initLabels t) v = .ok (some t1, none) ∧
      preemptableOf t1 = some v ∧ initLabels t1 = t1 ∧
      writePreemptable t1 v = .ok (some t1, none) := by
  obtain ⟨m, hm⟩ := initLabels_labels t
  refine ⟨{ initLabels t with ObjectMeta :=
      { (initLabels t).ObjectMeta with Labels := some (mapSet m PodPreemptable v) } },
    ?_, ?_, ?_, ?_⟩
  · simp [writePreemptable, setLabel, hm]
  · simp [preemptableOf, mapGet_mapSet_self]
  · unfold initLabels
    have hlen : goLen (some (mapSet m PodPreemptable v)) ≠ 0 := by
      simp [goLen, mapSet_ne_nil]
    simp [hlen]
  · simp [writePreemptable, setLabel, mapSet_mapSet_self]

/-- For a job and a non-nil template, `setPodLabel` runs the initialisation statement and
then either writes the decided value or returns the decided error. -/
theorem setPodLabel_eq (job : PyTorchJob) (t : PodTemplateSpec) (rtype index : String) :
    setPodLabel (.pyTorchJob (some job)) (some t) rtype index =
      match preemptableDecision (decide (hasMaster job)) rtype index with
      | .ok v => writePreemptable (initLabels t) v
      | .error err => .ok (some (initLabels t), some err) := by
  unfold setPodLabel preemptableDecision
  by_cases hm : hasMaster job
  · have hm1 := hm
    unfold hasMaster at hm1
    by_cases hr : rtype = ToLower PyTorchReplicaTypeMaster <;> simp [hm, hm1, hr]
  · have hm1 := hm
    unfold hasMaster at hm1
    cases ha : Atoi index with
    | error err => simp [hm, hm1]
    | ok rank => by_cases h0 : rank = 0 <;> simp [hm, hm1, h0]

/-! ### `strconv.Atoi` accepts decimal literals only -/

theorem parseUintLoop_ok_digits (cs : List Char) (n m : Nat)
    (h : parseUintLoop cs n = .ok m) : cs.all (fun d => (digitValue d).isSome) = true := by
  induction cs generalizing n with
  | nil => rfl
  | cons c cs ih =>
    unfold parseUintLoop at h
    cases hd : digitValue c with
    | none => simp [hd] at h
    | some d =>
      simp only [hd] at h
      split at h
      · cases h
      · split at h
        · cases h
        · simp [hd, ih _ h]

theorem ParseUint_ok_digits (cs : List Char) (m : Nat) (h : ParseUint cs = .ok m) :
    cs ≠ [] ∧ cs.all (fun d => (digitValue d).isSome) = true := by
  cases cs with
  | nil => simp [ParseUint] at h
  | cons c cs => exact ⟨List.cons_ne_nil c cs, parseUintLoop_ok_digits _ 0 m h⟩

theorem parseIntSigned_ok_digits (neg : Bool) (cs : List Char) (z : Int)
    (h : parseIntSigned neg cs = .ok z) :
    cs ≠ [] ∧ cs.all (fun d => (digitValue d).isSome) = true := by
  unfold parseIntSigned at h
  cases hu : ParseUint cs with
  | error k => cases k <;> simp [hu] at h
  | ok un => exact ParseUint_ok_digits cs un hu

theorem ParseInt_ok_literal (s : String) (z : Int) (h : ParseInt s.data = .ok z) :
    isDecimalLiteral s = true := by
  unfold isDecimalLiteral
  unfold ParseInt at h
  cases hs : s.data with
  | nil => simp [hs] at h
  | cons c r =>
    simp only [hs] at h
    by_cases hp : c = '+'
    · obtain ⟨hne, hall⟩ := parseIntSigned_ok_digits false r z (by simpa [hp] using h)
      cases r with
      | nil => exact absurd rfl hne
      | cons d r => simpa [hp] using hall
    · by_cases hmin : c = '-'
      · obtain ⟨hne, hall⟩ := parseIntSigned_ok_digits true r z (by simpa [hp, hmin] using h)
        cases r with
        | nil => exact absurd rfl hne
        | cons d r => simpa [hmin] using hall
      · obtain ⟨_, hall⟩ := parseIntSigned_ok_digits false (c :: r) z
          (by simpa [hp, hmin] using h)
        simpa [hp, hmin] using hall

/-- A string that is not a decimal literal (the empty string included) makes `Atoi` fail. -/
theorem Atoi_error_of_not_literal (s : String) (h : isDecimalLiteral s = false) :
    ∃ k, Atoi s = .error (.numError "Atoi" s k) := by
  unfold Atoi
  cases hp : ParseInt s.data with
  | error k => exact ⟨k, rfl⟩
  | ok z =>
    have := ParseInt_ok_literal s z hp
    rw [h] at this
    cases this

/-- C4: for a job with a non-nil Master entry, every pod template and every index string,
`setPodLabel` returns a nil error and leaves the preemptable label at "false" when `rtype`
is the lower-cased Master type name and at "true" for every other `rtype`. -/
theorem setPodLabel_with_master (job : PyTorchJob) (t : PodTemplateSpec)
    (rtype index : String) (h : hasMaster job) :
    ∃ t1, setPodLabel (.pyTorchJob (some job)) (some t) rtype index = .ok (some t1, none) ∧
      preemptableOf t1
        = some (if rtype = ToLower PyTorchReplicaTypeMaster then "false" else "true") := by
  rw [setPodLabel_eq]
  by_cases hr : rtype = ToLower PyTorchReplicaTypeMaster
  · obtain ⟨t1, hw, hp, _⟩ := writePreemptable_initLabels t "false"
    exact ⟨t1, by simpa [preemptableDecision, h, hr] using hw, by simpa [hr] using hp⟩
  · obtain ⟨t1, hw, hp, _⟩ := writePreemptable_initLabels t "true"
    exact ⟨t1, by simpa [preemptableDecision, h, hr] using hw, by simpa [hr] using hp⟩

/-- Witness of C4: the Master pod of a job with a Master role, with a non-numeric index. -/
theorem setPodLabel_with_master_witness :
    hasMaster masterJob ∧
      ∃ t1, setPodLabel (.pyTorchJob (some masterJob)) (some bareTemplate) "master" "x"
          = .ok (some t1, none) ∧
        preemptableOf t1
          = some (if "master" = ToLower PyTorchReplicaTypeMaster then "false" else "true") :=
  ⟨by decide, setPodLabel_with_master masterJob bareTemplate "master" "x" (by decide)⟩

/-- C5: for a job without a Master replica spec, every `rtype` and every index that `Atoi`
parses to a rank, `setPodLabel` returns a nil error and leaves the preemptable label at
"false" when the rank is 0 and at "true" when the rank is greater than 0. -/
theorem setPodLabel_by_rank (job : PyTorchJob) (t : PodTemplateSpec)
    (rtype index : String) (rank : Int) (h : ¬ hasMaster job) (hrank : Atoi index = .ok rank) :
    ∃ t1, setPodLabel (.pyTorchJob (some job)) (some t) rtype index = .ok (some t1, none) ∧
      (rank = 0 → preemptableOf t1 = some "false") ∧
      (0 < rank → preemptableOf t1 = some "true") := by
  rw [setPodLabel_eq]
  by_cases h0 : rank = 0
  · obtain ⟨t1, hw, hp, _⟩ := writePreemptable_initLabels t "false"
    refine ⟨t1, by simpa [preemptableDecision, h, hrank, h0] using hw, fun _ => hp, ?_⟩
    intro hpos
    omega
  · obtain ⟨t1, hw, hp, _⟩ := writePreemptable_initLabels t "true"
    exact ⟨t1, by simpa [preemptableDecision, h, hrank, h0] using hw,
      fun hz => absurd hz h0, fun _ => hp⟩

/-- Witness of C5: worker 3 of a job that has workers only. -/
theorem setPodLabel_by_rank_witness :
    (¬ hasMaster workerJob ∧ Atoi "3" = .ok 3) ∧
      ∃ t1, setPodLabel (.pyTorchJob (some workerJob)) (some labelledTemplate) "worker" "3"
          = .ok (some t1, none) ∧
        ((3 : Int) = 0 → preemptableOf t1 = some "false") ∧
        ((0 : Int) < 3 → preemptableOf t1 = some "true") :=
  ⟨by decide,
    setPodLabel_by_rank workerJob labelledTemplate "worker" "3" 3 (by decide) (by decide)⟩

/-- C6, as stated, fails: for a job with a Master role the index is never parsed, so a
non-numeric index and an empty index both give a nil error and a written label. -/
theorem setPodLabel_master_ignores_index :
    (isDecimalLiteral "abc" = false ∧
      setPodLabel (.pyTorchJob (some masterJob)) (some bareTemplate) "worker" "abc"
        = .ok (some { ObjectMeta := { Labels := some [("volcano.sh/preemptable", "true")] } },
            none)) ∧
    (isDecimalLiteral "" = false ∧
      setPodLabel (.pyTorchJob (some masterJob)) (some bareTemplate) "worker" ""
        = .ok (some { ObjectMeta := { Labels := some [("volcano.sh/preemptable", "true")] } },
            none)) := by
  decide

/-- C6, amended: for a job without a Master replica spec and an index that is not a decimal
literal (non-numeric or empty), `setPodLabel` returns the `Atoi` error and the preemptable
label reads as it did before the call. -/
theorem setPodLabel_bad_index (job : PyTorchJob) (t : PodTemplateSpec)
    (rtype index : String) (h : ¬ hasMaster job) (hidx : isDecimalLiteral index = false) :
    ∃ t1 k, setPodLabel (.pyTorchJob (some job)) (some t) rtype index
        = .ok (some t1, some (.numError "Atoi" index k)) ∧
      preemptableOf t1 = preemptableOf t := by
  obtain ⟨k, hk⟩ := Atoi_error_of_not_literal index hidx
  refine ⟨initLabels t, k, ?_, preemptableOf_initLabels t⟩
  rw [setPodLabel_eq]
  simp [preemptableDecision, h, hk]

/-- Witness of C6 amended: an empty index on a job that has workers only. -/
theorem setPodLabel_bad_index_witness :
    (¬ hasMaster workerJob ∧ isDecimalLiteral "" = false) ∧
      ∃ t1 k, setPodLabel (.pyTorchJob (some workerJob)) (some labelledTemplate) "worker" ""
          = .ok (some t1, some (.numError "Atoi" "" k)) ∧
        preemptableOf t1 = preemptableOf labelledTemplate :=
  ⟨by decide, setPodLabel_bad_index workerJob labelledTemplate "worker" "" (by decide) rfl⟩

/-- C8: two jobs that agree on Master presence and any two pod templates give, for the same
`rtype` and `index`, the same error outcome; on success both templates carry the same
preemptable value, and on error neither template has its preemptable label written. -/
theorem setPodLabel_depends_only (job1 job2 : PyTorchJob) (t1 t2 : PodTemplateSpec)
    (rtype index : String) (h : hasMaster job1 ↔ hasMaster job2) :
    ∃ u1 u2 err,
      setPodLabel (.pyTorchJob (some job1)) (some t1) rtype index = .ok (some u1, err) ∧
      setPodLabel (.pyTorchJob (some job2)) (some t2) rtype index = .ok (some u2, err) ∧
      (err = none → ∃ v, preemptableOf u1 = some v ∧ preemptableOf u2 = some v) ∧
      (err ≠ none → preemptableOf u1 = preemptableOf t1 ∧
        preemptableOf u2 = preemptableOf t2) := by
  have hd : decide (hasMaster job1) = decide (hasMaster job2) := by
    by_cases h1 : hasMaster job1
    · simp [h1, h.mp h1]
    · have h2 : ¬ hasMaster job2 := fun h2 => h1 (h.mpr h2)
      simp [h1, h2]
  rw [setPodLabel_eq, setPodLabel_eq, hd]
  cases preemptableDecision (decide (hasMaster job2)) rtype index with
  | ok v =>
    obtain ⟨u1, hw1, hp1, _⟩ := writePreemptable_initLabels t1 v
    obtain ⟨u2, hw2, hp2, _⟩ := writePreemptable_initLabels t2 v
    exact ⟨u1, u2, none, hw1, hw2, fun _ => ⟨v, hp1, hp2⟩, fun hne => absurd rfl hne⟩
  | error e =>
    exact ⟨initLabels t1, initLabels t2, some e, rfl, rfl, fun he => Option.noConfusion he,
      fun _ => ⟨preemptableOf_initLabels t1, preemptableOf_initLabels t2⟩⟩

/-- Witness of C8: two different jobs with a Master role, a bare and a labelled template. -/
theorem setPodLabel_depends_only_witness :
    (hasMaster masterJob ↔ hasMaster soloMasterJob) ∧
      ∃ u1 u2 err,
        setPodLabel (.pyTorchJob (some masterJob)) (some bareTemplate) "worker" "5"
          = .ok (some u1, err) ∧
        setPodLabel (.pyTorchJob (some soloMasterJob)) (some labelledTemplate) "worker" "5"
          = .ok (some u2, err) ∧
        (err = none → ∃ v, preemptableOf u1 = some v ∧ preemptableOf u2 = some v) ∧
        (err ≠ none → preemptableOf u1 = preemptableOf bareTemplate ∧
          preemptableOf u2 = preemptableOf labelledTemplate) :=
  ⟨by decide,
    setPodLabel_depends_only masterJob soloMasterJob bareTemplate labelledTemplate
      "worker" "5" (by decide)⟩

/-- C9: `setPodLabel` is idempotent: for every job, pod template, `rtype` and `index` the
call returns, and a second call with the same arguments on the template left by the first
returns the same error and leaves that template as it is. -/
theorem setPodLabel_idempotent (job : PyTorchJob) (t : PodTemplateSpec)
    (rtype index : String) :
    ∃ t1 err,
      setPodLabel (.pyTorchJob (some job)) (some t) rtype index = .ok (some t1, err) ∧
      setPodLabel (.pyTorchJob (some job)) (some t1) rtype index = .ok (some t1, err) := by
  cases hdec : preemptableDecision (decide (hasMaster job)) rtype index with
  | ok v =>
    obtain ⟨t1, hw, _, hinit, hagain⟩ := writePreemptable_initLabels t v
    refine ⟨t1, none, ?_, ?_⟩
    · rw [setPodLabel_eq, hdec]
      exact hw
    · rw [setPodLabel_eq, hdec]
      simp only [hinit]
      exact hagain
  | error e =>
    refine ⟨initLabels t, some e, ?_, ?_⟩
    · rw [setPodLabel_eq, hdec]
    · rw [setPodLabel_eq, hdec]
      simp only [initLabels_idem]

/-! ## Deep copies: `ElasticPolicy.DeepCopy` -/

theorem copyPtr_self {α : Type} (x : Option α) : copyPtr x x = x := by
  cases x <;> rfl

/-- Copying a slice into a freshly made slice of the same length gives the slice back. -/
theorem goCopy_replicate {α : Type} (z : α) (l : List α) :
    goCopy (List.replicate l.length z) l = l := by
  simp [goCopy]

theorem take_set_same {α : Type} (l : List α) (n : Nat) (x : α) :
    (l.set n x).take n = l.take n := by
  induction l generalizing n with
  | nil => simp
  | cons a l ih => cases n <;> simp [ih]

/-- The element-wise copy loop, started at index `n`, overwrites the slots from `n` on. -/
theorem foldl_metric_set (ext : LibraryCopies) (l : List MetricSpec) (n : Nat)
    (dst : List MetricSpec) (hlen : dst.length = n + l.length) :
    (l.enumFrom n).foldl (fun out entry => out.set entry.1 (ext.metricSpec entry.2)) dst
      = dst.take n ++ l.map ext.metricSpec := by
  induction l generalizing n dst with
  | nil =>
    have hn : dst.length ≤ n := by simp at hlen; omega
    simp [List.take_of_length_le hn]
  | cons a l ih =>
    have hlt : n < dst.length := by simp at hlen; omega
    rw [List.enumFrom_cons, List.foldl_cons, ih (n + 1)]
    · rw [List.take_succ]
      simp [List.getElem?_set, hlt, take_set_same]
    · simp at hlen ⊢
      omega

theorem copyMetricsLoop_eq (ext : LibraryCopies) (z : MetricSpec) (l : List MetricSpec) :
    copyMetricsLoop ext l (List.replicate l.length z) = l.map ext.metricSpec := by
  unfold copyMetricsLoop List.enum
  rw [foldl_metric_set ext l 0 _ (by simp)]
  simp

/-- What `DeepCopyInto` leaves in `out`: the receiver, with each metric spec passed through
the library copy. -/
theorem ElasticPolicy_DeepCopyInto_eq (ext : LibraryCopies) (e out : ElasticPolicy) :
    ElasticPolicy.DeepCopyInto ext e out
      = { e with Metrics := e.Metrics.map (List.map ext.metricSpec) } := by
  unfold ElasticPolicy.DeepCopyInto
  cases hc : e.RDZVConf <;> cases hm : e.Metrics <;>
    simp [copyPtr_self, goCopy_replicate, copyMetricsLoop_eq, hc, hm]

theorem ElasticPolicy_DeepCopyInto_faithful (ext : LibraryCopies) (hext : ext.Faithful)
    (e out : ElasticPolicy) : ElasticPolicy.DeepCopyInto ext e out = e := by
  rw [ElasticPolicy_DeepCopyInto_eq]
  have hmap : ∀ l : List MetricSpec, l.map ext.metricSpec = l := by
    intro l
    rw [List.map_congr_left (fun m _ => hext.2.2 m)]
    exact List.map_id l
  cases hm : e.Metrics with
  | none => cases e; simp_all
  | some l => cases e; simp_all

/-- C11: `ElasticPolicy.DeepCopy` returns nil for a nil receiver and otherwise a policy equal
to the receiver field by field (each optional field present exactly when it is in the
original, with the same value; `RDZVConf` and `Metrics` with the same elements in the same
order), the library copy of a metric spec being equal to its receiver. -/
theorem ElasticPolicy_DeepCopy_equal (ext : LibraryCopies) (hext : ext.Faithful)
    (e : ElasticPolicy) :
    ElasticPolicy.DeepCopy ext none = none ∧
      ElasticPolicy.DeepCopy ext (some e) = some e := by
  refine ⟨rfl, ?_⟩
  unfold ElasticPolicy.DeepCopy
  simp only []
  rw [ElasticPolicy_DeepCopyInto_faithful ext hext]

/-- Witness of C11: a policy with some fields set, two `RDZVConf` entries and two metrics. -/
theorem ElasticPolicy_DeepCopy_equal_witness :
    valueCopies.Faithful ∧
      (ElasticPolicy.DeepCopy valueCopies none = none ∧
        ElasticPolicy.DeepCopy valueCopies (some sampleElasticPolicy)
          = some sampleElasticPolicy) :=
  ⟨⟨fun _ => rfl, fun _ => rfl, fun _ => rfl⟩,
    ElasticPolicy_DeepCopy_equal valueCopies ⟨fun _ => rfl, fun _ => rfl, fun _ => rfl⟩
      sampleElasticPolicy⟩

/-! ## Deep copies: `PyTorchJobSpec.DeepCopyInto` -/

/-- Writing a key the map does not hold adds the binding after the others. -/
theorem mapSet_of_not_mem {β : Type} (m : List (String × β)) (k : String) (v : β)
    (hk : k ∉ m.map Prod.fst) : mapSet m k v = m ++ [(k, v)] := by
  induction m with
  | nil => rfl
  | cons e m ih =>
    obtain ⟨k', v'⟩ := e
    have hne : ¬ k' = k := fun h => hk (by simp [h])
    have hrest : k ∉ m.map Prod.fst := fun h => hk (by simp [h])
    simp [mapSet, hne, ih hrest]

/-- A key the map does not hold reads as absent. -/
theorem mapGet_of_not_mem {β : Type} (m : List (String × β)) (k : String)
    (hk : k ∉ m.map Prod.fst) : mapGet m k = none := by
  induction m with
  | nil => rfl
  | cons e m ih =>
    obtain ⟨k', v'⟩ := e
    have hne : ¬ k' = k := fun h => hk (by simp [h])
    have hrest : k ∉ m.map Prod.fst := fun h => hk (by simp [h])
    simp [mapGet, hne, ih hrest]

/-- One pass of the role-map loop on a key not yet in `out` appends the copied entry. -/
theorem replicaSpecsStep_of_not_mem (ext : LibraryCopies)
    (out : List (ReplicaType × Option ReplicaSpec)) (entry : ReplicaType × Option ReplicaSpec)
    (hk : entry.1 ∉ out.map Prod.fst) :
    replicaSpecsStep ext out entry = out ++ [(entry.1, entry.2.map ext.replicaSpec)] := by
  obtain ⟨k, v⟩ := entry
  cases v with
  | none =>
    simp only [replicaSpecsStep]
    rw [mapSet_mapSet_self, mapSet_of_not_mem _ _ _ hk]
    rfl
  | some val =>
    simp only [replicaSpecsStep]
    rw [mapSet_of_not_mem _ _ _ hk]
    rfl

/-- The role-map loop over entries with distinct keys, none of them in `out` yet, appends
the copied entries in the order visited. -/
theorem foldl_replicaSpecsStep (ext : LibraryCopies)
    (m out : List (ReplicaType × Option ReplicaSpec))
    (hnodup : (m.map Prod.fst).Nodup) (hfresh : ∀ k ∈ m.map Prod.fst, k ∉ out.map Prod.fst) :
    m.foldl (replicaSpecsStep ext) out
      = out ++ m.map (fun e => (e.1, e.2.map ext.replicaSpec)) := by
  induction m generalizing out with
  | nil => simp
  | cons e m ih =>
    rw [List.map_cons, List.nodup_cons] at hnodup
    have he : e.1 ∉ out.map Prod.fst := hfresh e.1 (by simp)
    rw [List.foldl_cons, replicaSpecsStep_of_not_mem ext out e he, ih _ hnodup.2]
    · simp
    · intro k hk hmem
      rw [List.map_append, List.mem_append] at hmem
      rcases hmem with hmem | hmem
      · exact hfresh k (by simp [hk]) hmem
      · have hke : k = e.1 := by simpa using hmem
        exact hnodup.1 (hke ▸ hk)

/-- C14: `PyTorchJobSpec.DeepCopyInto` preserves the role map and the elastic policy. For a
map with distinct keys and library copies equal to their receivers, the copy holds the same
keys, a nil value where the original has nil and an equal replica spec where it has one, a
nil map stays nil, and the elastic policy is present exactly when it is in the original and
then equal to it. -/
theorem PyTorchJobSpec_DeepCopyInto_preserves (ext : LibraryCopies) (hext : ext.Faithful)
    (in_ out : PyTorchJobSpec) (hkeys : (mapKeys in_.PyTorchReplicaSpecs).Nodup) :
    (PyTorchJobSpec.DeepCopyInto ext in_ out).PyTorchReplicaSpecs = in_.PyTorchReplicaSpecs ∧
      mapKeys (PyTorchJobSpec.DeepCopyInto ext in_ out).PyTorchReplicaSpecs
        = mapKeys in_.PyTorchReplicaSpecs ∧
      (∀ key, replicaSpecAt (PyTorchJobSpec.DeepCopyInto ext in_ out).PyTorchReplicaSpecs key
        = replicaSpecAt in_.PyTorchReplicaSpecs key) ∧
      (in_.PyTorchReplicaSpecs = none →
        (PyTorchJobSpec.DeepCopyInto ext in_ out).PyTorchReplicaSpecs = none) ∧
      (PyTorchJobSpec.DeepCopyInto ext in_ out).ElasticPolicy = in_.ElasticPolicy := by
  have hmap : (PyTorchJobSpec.DeepCopyInto ext in_ out).PyTorchReplicaSpecs
      = in_.PyTorchReplicaSpecs := by
    unfold PyTorchJobSpec.DeepCopyInto
    cases hm : in_.PyTorchReplicaSpecs with
    | none => cases he : in_.ElasticPolicy <;> simp [hm]
    | some m =>
      have hnodup : (m.map Prod.fst).Nodup := by
        simpa [mapKeys, rangeEntries, hm] using hkeys
      have hcopy : m.map (fun e => (e.1, e.2.map ext.replicaSpec)) = m := by
        have hid : ∀ e ∈ m, (fun e : ReplicaType × Option ReplicaSpec =>
            (e.1, e.2.map ext.replicaSpec)) e = id e := by
          intro e _
          obtain ⟨k, v⟩ := e
          cases v <;> simp [hext.2.1]
        rw [List.map_congr_left hid, List.map_id]
      have hfold := foldl_replicaSpecsStep ext m [] hnodup (by simp)
      rw [hcopy, List.nil_append] at hfold
      cases he : in_.ElasticPolicy <;> simp [hfold]
  have hel : (PyTorchJobSpec.DeepCopyInto ext in_ out).ElasticPolicy = in_.ElasticPolicy := by
    unfold PyTorchJobSpec.DeepCopyInto
    cases hm : in_.PyTorchReplicaSpecs <;> cases he : in_.ElasticPolicy <;>
      simp [ElasticPolicy_DeepCopyInto_faithful ext hext, he]
  exact ⟨hmap, by rw [hmap], fun key => by rw [hmap], fun hnil => by rw [hmap, hnil], hel⟩

/-- Witness of C14: a spec with an elastic policy, a Worker role and a nil Master entry. -/
theorem PyTorchJobSpec_DeepCopyInto_preserves_witness :
    (PyTorchJobSpec.DeepCopyInto valueCopies sampleJobSpec {}).PyTorchReplicaSpecs
        = some [("Worker", some { Replicas := some 2 }), ("Master", none)] ∧
      (PyTorchJobSpec.DeepCopyInto valueCopies sampleJobSpec {}).ElasticPolicy
        = some sampleElasticPolicy :=
  have h := PyTorchJobSpec_DeepCopyInto_preserves valueCopies
    ⟨fun _ => rfl, fun _ => rfl, fun _ => rfl⟩ sampleJobSpec {} (by decide)
  ⟨h.1, h.2.2.2.2⟩

/-! ## Pod lists: `ConvertPodList` and the nil filter -/

/-- The unfiltered loop appends the index of every entry, in order. -/
theorem foldl_append_ref (xs : List (Nat × Pod)) (acc : List PodRef) :
    xs.foldl (fun ret entry => ret ++ [(⟨entry.1⟩ : PodRef)]) acc
      = acc ++ xs.map (fun e => (⟨e.1⟩ : PodRef)) := by
  induction xs generalizing acc with
  | nil => simp
  | cons x xs ih => rw [List.foldl_cons, ih]; simp

/-- Function `ConvertPodList` returns `&list[0], ..., &list[len-1]`. -/
theorem ConvertPodList_some (l : List Pod) :
    ConvertPodList (some l) = some ((List.range l.length).map PodRef.mk) := by
  unfold ConvertPodList
  simp only []
  rw [foldl_append_ref, List.nil_append, ← List.enum_map_fst, List.map_map]
  rfl

/-- C13: for every pod list, `ConvertPodListWithFilter` with a nil filter equals
`ConvertPodList`, and so does `ConvertPodListWithFilter` with a filter that always returns
true; nil maps to nil, and a non-nil list maps to the references to all its elements in
order, as many as the list has. -/
theorem ConvertPodListWithFilter_nil_filter (list : Option (List Pod)) :
    ConvertPodListWithFilter list none = ConvertPodList list ∧
      ConvertPodListWithFilter list (some (fun _ => true)) = ConvertPodList list ∧
      ConvertPodList none = none ∧
      ∀ l, ConvertPodList (some l) = some ((List.range l.length).map PodRef.mk) ∧
        ((List.range l.length).map PodRef.mk).length = l.length := by
  refine ⟨?_, ?_, rfl, fun l => ⟨ConvertPodList_some l, by simp⟩⟩
  · cases list with
    | none => rfl
    | some l => rfl
  · cases list with
    | none => rfl
    | some l =>
      unfold ConvertPodListWithFilter ConvertPodList
      simp only []
      rw [foldl_convertStep_some, foldl_append_ref]
      simp

/-! ## Replica types: `GetReplicaTypes` -/

theorem foldl_append_key {β : Type} (l : List (String × β)) (acc : List String) :
    l.foldl (fun keys entry => keys ++ [entry.1]) acc = acc ++ l.map Prod.fst := by
  induction l generalizing acc with
  | nil => simp
  | cons e l ih => rw [List.foldl_cons, ih]; simp

/-- Function `GetReplicaTypes` lists the keys in the order `range` visits them. -/
theorem GetReplicaTypes_eq (specs : Option (List (ReplicaType × Option ReplicaSpec))) :
    GetReplicaTypes specs = mapKeys specs := by
  unfold GetReplicaTypes mapKeys
  rw [foldl_append_key, List.nil_append]

/-- C17: for every replica-spec map (nil and empty included; its keys are distinct, as those
of a Go map are), `GetReplicaTypes` returns every key exactly once and nothing else, so the
result has as many elements as the map has keys and no duplicates; another iteration order
of the same map gives a permutation of the result. -/
theorem GetReplicaTypes_keys (specs : Option (List (ReplicaType × Option ReplicaSpec)))
    (hkeys : (mapKeys specs).Nodup) :
    (∀ k, (GetReplicaTypes specs).count k = if k ∈ mapKeys specs then 1 else 0) ∧
      (GetReplicaTypes specs).length = goLen specs ∧
      (GetReplicaTypes specs).Nodup ∧
      ∀ specs2, (rangeEntries specs2).Perm (rangeEntries specs) →
        (GetReplicaTypes specs2).Perm (GetReplicaTypes specs) := by
  refine ⟨?_, ?_, ?_, ?_⟩
  · intro k
    rw [GetReplicaTypes_eq]
    exact List.count_eq_of_nodup hkeys
  · rw [GetReplicaTypes_eq]
    cases specs <;> simp [mapKeys, rangeEntries, goLen]
  · rw [GetReplicaTypes_eq]
    exact hkeys
  · intro specs2 hperm
    rw [GetReplicaTypes_eq, GetReplicaTypes_eq]
    exact hperm.map Prod.fst

/-- Witness of C17: the map with a Worker entry and a nil Master entry. -/
theorem GetReplicaTypes_keys_witness :
    (mapKeys sampleJobSpec.PyTorchReplicaSpecs).Nodup ∧
      GetReplicaTypes sampleJobSpec.PyTorchReplicaSpecs = ["Worker", "Master"] ∧
      (GetReplicaTypes sampleJobSpec.PyTorchReplicaSpecs).length
        = goLen sampleJobSpec.PyTorchReplicaSpecs :=
  ⟨by decide, by decide,
    (GetReplicaTypes_keys sampleJobSpec.PyTorchReplicaSpecs (by decide)).2.1⟩

/-! ## Preemption labels: what `setPodLabel` leaves alone -/

/-- The initialisation statement changes no label: every key reads as before. -/
theorem labelAt_initLabels (t : PodTemplateSpec) (key : String) :
    labelAt (initLabels t) key = labelAt t key := by
  unfold initLabels labelAt
  cases hl : t.ObjectMeta.Labels with
  | none => simp [goLen, mapGet]
  | some m =>
    cases m with
    | nil => simp [goLen, mapGet]
    | cons e m => simp [goLen, hl]

/-- The initialisation statement keeps the number of labels and everything but the labels. -/
theorem initLabels_frame (t : PodTemplateSpec) :
    goLen (initLabels t).ObjectMeta.Labels = goLen t.ObjectMeta.Labels ∧
      (initLabels t).Spec = t.Spec ∧
      (initLabels t).ObjectMeta.Name = t.ObjectMeta.Name ∧
      (initLabels t).ObjectMeta.Namespace = t.ObjectMeta.Namespace ∧
      (initLabels t).ObjectMeta.Annotations = t.ObjectMeta.Annotations := by
  unfold initLabels
  cases hl : t.ObjectMeta.Labels with
  | none => simp [goLen]
  | some m =>
    cases m with
    | nil => simp [goLen]
    | cons e m => simp [goLen, hl]

/-- Writing the label after the initialisation statement succeeds, sets the preemptable key
and leaves every other key and every other field as the template had them. -/
theorem writePreemptable_initLabels_frame (t : PodTemplateSpec) (v : String) :
    ∃ u, writePreemptable (initLabels t) v = .ok (some u, none) ∧
      labelAt u PodPreemptable = some v ∧
      (∀ key, key ≠ PodPreemptable → labelAt u key = labelAt t key) ∧
      u.Spec = t.Spec ∧ u.ObjectMeta.Annotations = t.ObjectMeta.Annotations := by
  obtain ⟨m, hm⟩ := initLabels_labels t
  obtain ⟨_, hspec, _, _, hann⟩ := initLabels_frame t
  refine ⟨{ initLabels t with ObjectMeta :=
      { (initLabels t).ObjectMeta with Labels := some (mapSet m PodPreemptable v) } },
    ?_, ?_, ?_, hspec, hann⟩
  · simp [writePreemptable, setLabel, hm]
  · simp [labelAt, mapGet_mapSet_self]
  · intro key hkey
    rw [← labelAt_initLabels t key]
    simp [labelAt, hm, mapGet_mapSet_ne _ _ hkey]

/-- The decision is one of the two label values. -/
theorem preemptableDecision_ok (master : Bool) (rtype index v : String)
    (h : preemptableDecision master rtype index = .ok v) : v = "false" ∨ v = "true" := by
  unfold preemptableDecision at h
  cases master with
  | true =>
    by_cases hr : rtype = ToLower PyTorchReplicaTypeMaster
    · simp [hr] at h
      exact Or.inl h.symm
    · simp [hr] at h
      exact Or.inr h.symm
  | false =>
    cases ha : Atoi index with
    | error e => simp [ha] at h
    | ok rank =>
      by_cases h0 : rank = 0
      · simp [ha, h0] at h
        exact Or.inl h.symm
      · simp [ha, h0] at h
        exact Or.inr h.symm

/-- The decision is an error only without a Master role, and then it is the `Atoi` error. -/
theorem preemptableDecision_error (master : Bool) (rtype index : String) (e : GoError)
    (h : preemptableDecision master rtype index = .error e) :
    master = false ∧ Atoi index = .error e := by
  unfold preemptableDecision at h
  cases master with
  | true => by_cases hr : rtype = ToLower PyTorchReplicaTypeMaster <;> simp [hr] at h
  | false =>
    cases ha : Atoi index with
    | error e2 =>
      simp [ha] at h
      exact ⟨rfl, by rw [h]⟩
    | ok rank => by_cases h0 : rank = 0 <;> simp [ha, h0] at h

/-- C12: when `setPodLabel` returns an error, which happens only when `obj` is not a
`*PyTorchJob` or the job has no Master and `index` does not parse, no label of the pod
template is added, removed or modified: every key, the preemptable one included, reads as
before the call, the number of labels is the same, and so is the rest of the template. -/
theorem setPodLabel_error_keeps_labels (obj : Obj) (t : PodTemplateSpec)
    (rtype index : String) (t1 : Option PodTemplateSpec) (err : GoError)
    (h : setPodLabel obj (some t) rtype index = .ok (t1, some err)) :
    ∃ u, t1 = some u ∧
      (∀ key, labelAt u key = labelAt t key) ∧
      goLen u.ObjectMeta.Labels = goLen t.ObjectMeta.Labels ∧
      u.Spec = t.Spec ∧ u.ObjectMeta.Annotations = t.ObjectMeta.Annotations ∧
      ((∀ p, obj ≠ .pyTorchJob p) ∨
        ∃ job, obj = .pyTorchJob (some job) ∧ ¬ hasMaster job ∧ Atoi index = .error err) := by
  cases obj with
  | nilInterface =>
    simp only [setPodLabel, Except.ok.injEq, Prod.mk.injEq] at h
    exact ⟨t, h.1.symm, fun _ => rfl, rfl, rfl, rfl, Or.inl (fun p hp => Obj.noConfusion hp)⟩
  | other text =>
    simp only [setPodLabel, Except.ok.injEq, Prod.mk.injEq] at h
    exact ⟨t, h.1.symm, fun _ => rfl, rfl, rfl, rfl, Or.inl (fun p hp => Obj.noConfusion hp)⟩
  | pyTorchJob p =>
    cases p with
    | none => simp [setPodLabel] at h
    | some job =>
      rw [setPodLabel_eq] at h
      cases hdec : preemptableDecision (decide (hasMaster job)) rtype index with
      | ok v =>
        obtain ⟨u, hw, _⟩ := writePreemptable_initLabels t v
        rw [hdec] at h
        simp only [] at h
        rw [hw] at h
        simp at h
      | error e =>
        rw [hdec] at h
        simp only [Except.ok.injEq, Prod.mk.injEq, Option.some.injEq] at h
        obtain ⟨hmaster, hatoi⟩ := preemptableDecision_error _ _ _ _ hdec
        obtain ⟨hlen, hspec, _, _, hann⟩ := initLabels_frame t
        refine ⟨initLabels t, h.1.symm, labelAt_initLabels t, hlen, hspec, hann, Or.inr ?_⟩
        exact ⟨job, rfl, by simpa using hmaster, by rw [← h.2]; exact hatoi⟩

/-- Witness of C12: an unparsable index on a job without Master, for a template with a nil
label map and all the same for one that carries labels; and an object of another type. -/
theorem setPodLabel_error_keeps_labels_witness :
    (∃ u, some (initLabels bareTemplate) = some u ∧
      (∀ key, labelAt u key = labelAt bareTemplate key) ∧
      goLen u.ObjectMeta.Labels = goLen bareTemplate.ObjectMeta.Labels ∧
      u.Spec = bareTemplate.Spec ∧
      u.ObjectMeta.Annotations = bareTemplate.ObjectMeta.Annotations ∧
      ((∀ p, Obj.pyTorchJob (some workerJob) ≠ .pyTorchJob p) ∨
        ∃ job, Obj.pyTorchJob (some workerJob) = .pyTorchJob (some job) ∧ ¬ hasMaster job ∧
          Atoi "x1" = .error (.numError "Atoi" "x1" .ErrSyntax))) ∧
    (∃ u, some labelledTemplate = some u ∧
      (∀ key, labelAt u key = labelAt labelledTemplate key) ∧
      goLen u.ObjectMeta.Labels = goLen labelledTemplate.ObjectMeta.Labels ∧
      u.Spec = labelledTemplate.Spec ∧
      u.ObjectMeta.Annotations = labelledTemplate.ObjectMeta.Annotations ∧
      ((∀ p, Obj.other "v1.Pod" ≠ .pyTorchJob p) ∨
        ∃ job, Obj.other "v1.Pod" = .pyTorchJob (some job) ∧ ¬ hasMaster job ∧
          Atoi "0" = .error (.errorf "v1.Pod is not a type of PyTorchJob"))) :=
  ⟨setPodLabel_error_keeps_labels (.pyTorchJob (some workerJob)) bareTemplate "worker" "x1"
      (some (initLabels bareTemplate)) (.numError "Atoi" "x1" .ErrSyntax) (by decide),
    setPodLabel_error_keeps_labels (.other "v1.Pod") labelledTemplate "worker" "0"
      (some labelledTemplate) (.errorf "v1.Pod is not a type of PyTorchJob") (by decide)⟩

/-- On the error path of a job the initialisation statement has already run: a nil label map
has become an empty one, which holds the same (no) labels. -/
theorem setPodLabel_error_nil_labels :
    setPodLabel (.pyTorchJob (some workerJob)) (some bareTemplate) "worker" "x1"
      = .ok (some { ObjectMeta := { Labels := some [] } },
          some (.numError "Atoi" "x1" .ErrSyntax)) := by
  decide

/-- C15: on success `setPodLabel` changes only the preemptable label: every other key reads
after the call what it read before (present exactly when it was, with the same value), the
preemptable key is present afterwards with value "true" or "false", and the rest of the
template is as before. -/
theorem setPodLabel_success_frame (obj : Obj) (t : PodTemplateSpec)
    (rtype index : String) (t1 : Option PodTemplateSpec)
    (h : setPodLabel obj (some t) rtype index = .ok (t1, none)) :
    ∃ u, t1 = some u ∧
      (∀ key, key ≠ PodPreemptable → labelAt u key = labelAt t key) ∧
      (labelAt u PodPreemptable = some "true" ∨ labelAt u PodPreemptable = some "false") ∧
      u.Spec = t.Spec ∧ u.ObjectMeta.Annotations = t.ObjectMeta.Annotations := by
  cases obj with
  | nilInterface => simp [setPodLabel] at h
  | other text => simp [setPodLabel] at h
  | pyTorchJob p =>
    cases p with
    | none => simp [setPodLabel] at h
    | some job =>
      rw [setPodLabel_eq] at h
      cases hdec : preemptableDecision (decide (hasMaster job)) rtype index with
      | error e =>
        rw [hdec] at h
        simp at h
      | ok v =>
        obtain ⟨u, hw, hp, hframe, hspec, hann⟩ := writePreemptable_initLabels_frame t v
        rw [hdec] at h
        simp only [] at h
        rw [hw] at h
        simp only [Except.ok.injEq, Prod.mk.injEq, and_true] at h
        refine ⟨u, h.symm, hframe, ?_, hspec, hann⟩
        rcases preemptableDecision_ok _ _ _ _ hdec with hv | hv
        · exact Or.inr (by rw [hp, hv])
        · exact Or.inl (by rw [hp, hv])

/-- Witness of C15: the Master pod of a job with a Master, on a template that carries an "app"
label and the preemptable label "true", which the call turns into "false". -/
theorem setPodLabel_success_frame_witness :
    ∃ u, some relabelledTemplate = some u ∧
      (∀ key, key ≠ PodPreemptable → labelAt u key = labelAt labelledTemplate key) ∧
      (labelAt u PodPreemptable = some "true" ∨ labelAt u PodPreemptable = some "false") ∧
      u.Spec = labelledTemplate.Spec ∧
      u.ObjectMeta.Annotations = labelledTemplate.ObjectMeta.Annotations :=
  setPodLabel_success_frame (.pyTorchJob (some masterJob)) labelledTemplate "master" "0" _
    (by decide)

/-- A job whose Master key is absent, or present with a nil value, has no Master role. -/
theorem not_hasMaster_of_nil_entry (job : PyTorchJob)
    (h : replicaSpecAt job.Spec.PyTorchReplicaSpecs PyTorchReplicaTypeMaster = none) :
    ¬ hasMaster job := fun hm => hm h

/-- C16: a Master key that is present but mapped to a nil replica spec counts as no Master
role. Such a job gets from `setPodLabel` exactly the outcome of any job whose map has no
Master key; index "0" gives "false" even for rtype "master"; an index that is not a decimal
literal gives an error. -/
theorem setPodLabel_nil_master_entry (job other : PyTorchJob) (t : PodTemplateSpec)
    (rtype index : String) (m : List (ReplicaType × Option ReplicaSpec))
    (hmap : job.Spec.PyTorchReplicaSpecs = some m)
    (hnil : mapGet m PyTorchReplicaTypeMaster = some none)
    (hother : PyTorchReplicaTypeMaster ∉ mapKeys other.Spec.PyTorchReplicaSpecs) :
    setPodLabel (.pyTorchJob (some job)) (some t) rtype index
        = setPodLabel (.pyTorchJob (some other)) (some t) rtype index ∧
      (∃ u, setPodLabel (.pyTorchJob (some job)) (some t) "master" "0" = .ok (some u, none) ∧
        preemptableOf u = some "false") ∧
      (isDecimalLiteral index = false →
        ∃ u err, setPodLabel (.pyTorchJob (some job)) (some t) rtype index
          = .ok (some u, some err)) := by
  have hjob : ¬ hasMaster job :=
    not_hasMaster_of_nil_entry job (by simp [replicaSpecAt, hmap, hnil])
  have hoth : ¬ hasMaster other := by
    apply not_hasMaster_of_nil_entry
    cases ho : other.Spec.PyTorchReplicaSpecs with
    | none => rfl
    | some m2 =>
      have hk : PyTorchReplicaTypeMaster ∉ m2.map Prod.fst := by
        simpa [mapKeys, rangeEntries, ho] using hother
      simp [replicaSpecAt, mapGet_of_not_mem m2 _ hk]
  refine ⟨?_, ?_, ?_⟩
  · rw [setPodLabel_eq, setPodLabel_eq]
    simp [hjob, hoth]
  · obtain ⟨u, hw, hp, _⟩ := writePreemptable_initLabels t "false"
    refine ⟨u, ?_, hp⟩
    rw [setPodLabel_eq]
    have hz : Atoi "0" = .ok 0 := by decide
    simpa [preemptableDecision, hjob, hz] using hw
  · intro hidx
    obtain ⟨k, hk⟩ := Atoi_error_of_not_literal index hidx
    refine ⟨initLabels t, .numError "Atoi" index k, ?_⟩
    rw [setPodLabel_eq]
    simp [preemptableDecision, hjob, hk]

/-- Witness of C16: the job with a nil Master entry against the job with workers only. -/
theorem setPodLabel_nil_master_entry_witness :
    (nilMasterJob.Spec.PyTorchReplicaSpecs
        = some [("Worker", some { Replicas := some 2 }), ("Master", none)] ∧
      mapGet [("Worker", (some { Replicas := some 2 } : Option ReplicaSpec)), ("Master", none)]
        PyTorchReplicaTypeMaster = some none ∧
      PyTorchReplicaTypeMaster ∉ mapKeys workerJob.Spec.PyTorchReplicaSpecs) ∧
    (setPodLabel (.pyTorchJob (some nilMasterJob)) (some bareTemplate) "master" "abc"
        = setPodLabel (.pyTorchJob (some workerJob)) (some bareTemplate) "master" "abc" ∧
      (∃ u, setPodLabel (.pyTorchJob (some nilMasterJob)) (some bareTemplate) "master" "0"
          = .ok (some u, none) ∧ preemptableOf u = some "false") ∧
      (isDecimalLiteral "abc" = false →
        ∃ u err, setPodLabel (.pyTorchJob (some nilMasterJob)) (some bareTemplate)
          "master" "abc" = .ok (some u, some err))) :=
  ⟨by decide,
    setPodLabel_nil_master_entry nilMasterJob workerJob bareTemplate "master" "abc"
      [("Worker", some { Replicas := some 2 }), ("Master", none)] rfl (by decide) (by decide)⟩

end TrainingOperator
